import Mathlib

/-
  Verification of the m3u-stream-merger-proxy stream-serving runtime.
  Shallow embedding of the Go sources:
    - proxy/loadbalancer/instance.go  (Balance, tryAllStreams, tryStreamUrls)
    - mp4_handler.go                  (loadBalancer, checkConcurrency)
    - the HLS writer / playlist parser (StartHLSWriter, processSegments,
      streamSegment, parsePlaylist)
    - the slug codec (EncodeSlug, DecodeSlug)
  External effects (HTTP, clocks, randomness) are modelled as explicit
  oracle parameters; session and log state is passed explicitly.
-/

namespace M3UProxy

/-- Outcome of one upstream HTTP attempt made by the load balancer for one
URL: request construction error, transport error, a nil response, or a
response carrying a status code. -/
inductive HttpOutcome
  | reqError
  | transportError
  | nilResponse
  | status (code : Nat)
deriving DecidableEq, Repr

/-- Embeds loadbalancer.LoadBalancerResult: a successful pick. The live
http.Response is modelled by the status code it carried (always 200 at the
point the value is built). -/
structure LoadBalancerResult where
  url : String
  index : String
  subIndex : String
  statusCode : Nat
deriving DecidableEq, Repr

/-- Embeds LoadBalancerInstance.tryStreamUrls (instance.go lines 205-277).
The sub-index map is given as the list of (subIndex, url) entries in the
order Go map iteration yields them; `fetch` is the HTTP oracle (the
combined outcome of http.NewRequestWithContext and httpClient.Do);
`checkConc` is the value of Cm.CheckConcurrency(index) during the call
(constant here: no concurrent mutator in the model); `tested` is
session.TestedIndexes; `reqs` logs every upstream request attempt as
(method, url), in order.  Returns the final TestedIndexes, the request
log, and the optional successful result. -/
def tryStreamUrls (fetch : String → HttpOutcome) (checkConc : Bool)
    (method index : String) :
    List (String × String) → List String → List (String × String) →
    List String × List (String × String) × Option LoadBalancerResult
  | [], tested, reqs => (tested, reqs, none)
  | (sub, u) :: rest, tested, reqs =>
    if tested.contains (index ++ "|" ++ sub) then
      tryStreamUrls fetch checkConc method index rest tested reqs
    else if checkConc then
      tryStreamUrls fetch checkConc method index rest tested reqs
    else
      match fetch u with
      | .status c =>
        if c = 200 then
          (tested, reqs ++ [(method, u)], some ⟨u, index, sub, 200⟩)
        else
          tryStreamUrls fetch checkConc method index rest
            (tested ++ [index ++ "|" ++ sub]) (reqs ++ [(method, u)])
      | _ =>
        tryStreamUrls fetch checkConc method index rest
          (tested ++ [index ++ "|" ++ sub]) (reqs ++ [(method, u)])

/-- Modelled from the spec: store.ConcurrencyManager.ConcurrencyPriorityValue
is in the store package, absent from src; section 4.1 of the spec defines it
as cap minus current count (larger means more headroom). -/
def ConcurrencyPriorityValue (cap current : Nat) : Int :=
  (cap : Int) - (current : Int)

/-
  Transcription of the Go sort package algorithm behind the sort.Slice call
  in tryAllStreams (instance.go lines 180-182, comparator
  less(i, j) = prio(x i) > prio(x j)).  sort.Slice runs pdqsort
  (sort/zsortfunc.go) with limit = bits.Len(length); the slice is modelled
  as a List Nat of source indexes addressed by position, data.Swap by
  swapIdx and data.Less(i, j) by prio (getIdx l j) < prio (getIdx l i).
  Loops become fueled recursions whose fuel exceeds the iteration count of
  every run, so the fuel-exhausted fallbacks are never taken.
-/

/-- The element at a position of the modelled slice (positions are always
in range in every run considered). -/
def getIdx (l : List Nat) (i : Nat) : Nat := l.getD i 0

/-- Embeds data.Swap(i, j). -/
def swapIdx (l : List Nat) (i j : Nat) : List Nat :=
  (l.set i (getIdx l j)).set j (getIdx l i)

/-- The inner loop of insertionSort (zsortfunc.go): for j := i; j > a and
Less(j, j-1); j-- swap j with j-1.  The argument is the current j; at 0 the
guard j greater than a fails for every a. -/
def insInner (prio : Nat → Int) (a : Nat) : List Nat → Nat → List Nat
  | l, 0 => l
  | l, j + 1 =>
    if a ≤ j ∧ prio (getIdx l j) < prio (getIdx l (j + 1)) then
      insInner prio a (swapIdx l (j + 1) j) j
    else l

/-- The outer loop of insertionSort: i runs from its start value for the
given number of iterations. -/
def insOuter (prio : Nat → Int) (a : Nat) : List Nat → Nat → Nat → List Nat
  | l, _, 0 => l
  | l, i, k + 1 => insOuter prio a (insInner prio a l i) (i + 1) k

/-- Embeds insertionSort (zsortfunc.go) on the range a to b: i from a+1
while i less than b. -/
def insertionSortRange (prio : Nat → Int) (a b : Nat) (l : List Nat) : List Nat :=
  insOuter prio a l (a + 1) (b - (a + 1))

/-- The list-level meaning of one insInner run used by the lemmas: the new
element x sinks past exactly the trailing elements of the (reversed) prefix
with strictly lower priority, one swap per step. -/
def insRev (prio : Nat → Int) (x : Nat) : List Nat → List Nat
  | [] => [x]
  | z :: zs => if prio z < prio x then z :: insRev prio x zs else x :: z :: zs

/-- The sortedness hints of the Go sort package. -/
inductive SortedHint
  | unknownHint
  | increasingHint
  | decreasingHint
deriving DecidableEq, Repr

/-- Embeds order2: order two positions by Less, counting swaps. -/
def order2Go (prio : Nat → Int) (l : List Nat) (a b swaps : Nat) : Nat × Nat × Nat :=
  if prio (getIdx l a) < prio (getIdx l b) then (b, a, swaps + 1) else (a, b, swaps)

/-- Embeds median: the median position of three, counting swaps. -/
def medianGo (prio : Nat → Int) (l : List Nat) (a b c swaps : Nat) : Nat × Nat :=
  let (a1, b1, s1) := order2Go prio l a b swaps
  let (b2, _, s2) := order2Go prio l b1 c s1
  let (_, b3, s3) := order2Go prio l a1 b2 s2
  (b3, s3)

/-- Embeds medianAdjacent: the median of a position and its neighbours. -/
def medianAdjacentGo (prio : Nat → Int) (l : List Nat) (a swaps : Nat) : Nat × Nat :=
  medianGo prio l (a - 1) a (a + 1) swaps

/-- The hint choosePivot derives from its swap count (maxSwaps is 12). -/
def hintFromSwaps (swaps : Nat) : SortedHint :=
  if swaps = 0 then .increasingHint
  else if swaps = 12 then .decreasingHint
  else .unknownHint

/-- Embeds choosePivot: candidates at the quarter points, Tukey ninther
only from length 50 up, then the median of the three. -/
def choosePivotGo (prio : Nat → Int) (l : List Nat) (a b : Nat) : Nat × SortedHint :=
  let len := b - a
  let i := a + len / 4 * 1
  let j := a + len / 4 * 2
  let k := a + len / 4 * 3
  if 8 ≤ len then
    let (i2, j2, k2, s0) :=
      if 50 ≤ len then
        let (i2, s1) := medianAdjacentGo prio l i 0
        let (j2, s2) := medianAdjacentGo prio l j s1
        let (k2, s3) := medianAdjacentGo prio l k s2
        (i2, j2, k2, s3)
      else (i, j, k, 0)
    let (j3, s4) := medianGo prio l i2 j2 k2 s0
    (j3, hintFromSwaps s4)
  else (j, hintFromSwaps 0)

/-- The scan of partialInsertionSort: advance i while i is below b and the
pair i-1, i is in order. -/
def painSkip (prio : Nat → Int) (l : List Nat) (b : Nat) : Nat → Nat → Nat
  | i, 0 => i
  | i, fuel + 1 =>
    if i < b ∧ ¬ prio (getIdx l (i - 1)) < prio (getIdx l i) then
      painSkip prio l b (i + 1) fuel
    else i

/-- The shift-left loop of partialInsertionSort: for j := i-1 while j is at
least 1 and Less(j, j-1), swap down. -/
def painShiftLeft (prio : Nat → Int) : List Nat → Nat → Nat → List Nat
  | l, _, 0 => l
  | l, j, fuel + 1 =>
    if 1 ≤ j ∧ prio (getIdx l (j - 1)) < prio (getIdx l j) then
      painShiftLeft prio (swapIdx l j (j - 1)) (j - 1) fuel
    else l

/-- The shift-right loop of partialInsertionSort: for j := i+1 while j is
below b and Less(j, j-1), swap down. -/
def painShiftRight (prio : Nat → Int) (b : Nat) : List Nat → Nat → Nat → List Nat
  | l, _, 0 => l
  | l, j, fuel + 1 =>
    if j < b ∧ prio (getIdx l (j - 1)) < prio (getIdx l j) then
      painShiftRight prio b (swapIdx l j (j - 1)) (j + 1) fuel
    else l

/-- Embeds partialInsertionSort: up to maxSteps (5) out-of-order pairs; a
full scan returns true, a short range (below shortestShifting, 50) returns
false without shifting, otherwise the pair is swapped and both shift loops
run. -/
def partialInsertionSortGo (prio : Nat → Int) (a b : Nat) :
    List Nat → Nat → Nat → List Nat × Bool
  | l, _, 0 => (l, false)
  | l, i, steps + 1 =>
    let i2 := painSkip prio l b i (b + 1)
    if i2 = b then (l, true)
    else if b - a < 50 then (l, false)
    else
      let l2 := swapIdx l i2 (i2 - 1)
      let l3 := if 2 ≤ i2 - a then painShiftLeft prio l2 (i2 - 1) (i2 + 1) else l2
      let l4 := if 2 ≤ b - i2 then painShiftRight prio b l3 (i2 + 1) (b + 1) else l3
      partialInsertionSortGo prio a b l4 i2 steps

/-- The i-scan of partition: advance while i is at most j and Less(i, a). -/
def partSkipI (prio : Nat → Int) (l : List Nat) (a : Nat) : Nat → Nat → Nat → Nat
  | i, _, 0 => i
  | i, j, fuel + 1 =>
    if i ≤ j ∧ prio (getIdx l a) < prio (getIdx l i) then
      partSkipI prio l a (i + 1) j fuel
    else i

/-- The j-scan of partition: retreat while i is at most j and not
Less(j, a). -/
def partSkipJ (prio : Nat → Int) (l : List Nat) (a : Nat) : Nat → Nat → Nat → Nat
  | _, j, 0 => j
  | i, j, fuel + 1 =>
    if i ≤ j ∧ ¬ prio (getIdx l a) < prio (getIdx l j) then
      partSkipJ prio l a i (j - 1) fuel
    else j

/-- The main loop of partition after the first crossing swap. -/
def partitionLoopGo (prio : Nat → Int) (a b : Nat) :
    List Nat → Nat → Nat → Nat → List Nat × Nat × Bool
  | l, _, j, 0 => (l, j, false)
  | l, i, j, fuel + 1 =>
    let i2 := partSkipI prio l a i j (b + 1)
    let j2 := partSkipJ prio l a i2 j (b + 1)
    if j2 < i2 then (swapIdx l j2 a, j2, false)
    else partitionLoopGo prio a b (swapIdx l i2 j2) (i2 + 1) (j2 - 1) fuel

/-- Embeds partition: pivot swapped to a, two scans; crossing on the first
pass returns alreadyPartitioned true, else swap and continue in the main
loop, finally swapping the pivot to the crossing point. -/
def partitionGo (prio : Nat → Int) (l0 : List Nat) (a b pivot : Nat) :
    List Nat × Nat × Bool :=
  let l := swapIdx l0 a pivot
  let i2 := partSkipI prio l a (a + 1) (b - 1) (b + 1)
  let j2 := partSkipJ prio l a i2 (b - 1) (b + 1)
  if j2 < i2 then (swapIdx l j2 a, j2, true)
  else partitionLoopGo prio a b (swapIdx l i2 j2) (i2 + 1) (j2 - 1) (b + 1)

/-- The i-scan of partitionEqual: advance while i is at most j and not
Less(a, i). -/
def partEqSkipI (prio : Nat → Int) (l : List Nat) (a : Nat) : Nat → Nat → Nat → Nat
  | i, _, 0 => i
  | i, j, fuel + 1 =>
    if i ≤ j ∧ ¬ prio (getIdx l i) < prio (getIdx l a) then
      partEqSkipI prio l a (i + 1) j fuel
    else i

/-- The j-scan of partitionEqual: retreat while i is at most j and
Less(a, j). -/
def partEqSkipJ (prio : Nat → Int) (l : List Nat) (a : Nat) : Nat → Nat → Nat → Nat
  | _, j, 0 => j
  | i, j, fuel + 1 =>
    if i ≤ j ∧ prio (getIdx l j) < prio (getIdx l a) then
      partEqSkipJ prio l a i (j - 1) fuel
    else j

/-- The loop of partitionEqual. -/
def partitionEqualLoopGo (prio : Nat → Int) (a b : Nat) :
    List Nat → Nat → Nat → Nat → List Nat × Nat
  | l, i, _, 0 => (l, i)
  | l, i, j, fuel + 1 =>
    let i2 := partEqSkipI prio l a i j (b + 1)
    let j2 := partEqSkipJ prio l a i2 j (b + 1)
    if j2 < i2 then (l, i2)
    else partitionEqualLoopGo prio a b (swapIdx l i2 j2) (i2 + 1) (j2 - 1) fuel

/-- Embeds partitionEqual: pivot swapped to a, then the equal-skipping
scans; returns the final i. -/
def partitionEqualGo (prio : Nat → Int) (l0 : List Nat) (a b pivot : Nat) :
    List Nat × Nat :=
  let l := swapIdx l0 a pivot
  partitionEqualLoopGo prio a b l (a + 1) (b - 1) (b + 1)

/-- Embeds bits.Len. -/
def bitsLen : Nat → Nat
  | 0 => 0
  | n + 1 => Nat.log2 (n + 1) + 1

/-- Embeds nextPowerOfTwo: one shifted left by bits.Len. -/
def nextPowerOfTwo (length : Nat) : Nat := 2 ^ bitsLen length

/-- Embeds xorshift.Next on a 64-bit state. -/
def xorshiftNext (r : Nat) : Nat :=
  let r1 := (r ^^^ (r <<< 13)) % 2 ^ 64
  let r2 := (r1 ^^^ (r1 >>> 7)) % 2 ^ 64
  (r2 ^^^ (r2 <<< 17)) % 2 ^ 64

/-- Embeds breakPatterns: three pseudo-random swaps around the midpoint,
xorshift seeded with the range length. -/
def breakPatternsGo (l : List Nat) (a b : Nat) : List Nat :=
  let length := b - a
  if 8 ≤ length then
    let modulus := nextPowerOfTwo length
    let idx := a + length / 4 * 2 - 1
    (([0, 1, 2] : List Nat).foldl
      (fun st i =>
        let r1 := xorshiftNext st.2
        let other0 := r1 &&& (modulus - 1)
        let other := if length ≤ other0 then other0 - length else other0
        (swapIdx st.1 (idx - 1 + i) (a + other), r1))
      (l, length)).1
  else l

/-- Embeds reverseRange. -/
def reverseRangeGo : List Nat → Nat → Nat → Nat → List Nat
  | l, _, _, 0 => l
  | l, i, j, fuel + 1 =>
    if i < j then reverseRangeGo (swapIdx l i j) (i + 1) (j - 1) fuel else l

/-- Embeds siftDown at offset first with heap size hi. -/
def siftDownGo (prio : Nat → Int) (first hi : Nat) : List Nat → Nat → Nat → List Nat
  | l, _, 0 => l
  | l, root, fuel + 1 =>
    let child0 := 2 * root + 1
    if hi ≤ child0 then l
    else
      let child :=
        if child0 + 1 < hi ∧
            prio (getIdx l (first + child0 + 1)) < prio (getIdx l (first + child0)) then
          child0 + 1
        else child0
      if ¬ prio (getIdx l (first + child)) < prio (getIdx l (first + root)) then l
      else siftDownGo prio first hi (swapIdx l (first + root) (first + child)) child fuel

/-- Embeds heapSort: build the heap from the middle down, then pop the
top to the end repeatedly. -/
def heapSortGo (prio : Nat → Int) (l : List Nat) (a b : Nat) : List Nat :=
  let hi := b - a
  let lBuilt := ((List.range ((hi - 1) / 2 + 1)).reverse).foldl
    (fun acc i => siftDownGo prio a hi acc i (hi + 1)) l
  ((List.range hi).reverse).foldl
    (fun acc i => siftDownGo prio a i (swapIdx acc a (a + i)) 0 (hi + 1)) lBuilt

/-- Embeds pdqsort: ranges of at most 12 go to insertionSort; exhausted
limit goes to heapSort; an imbalanced previous partition breaks patterns;
the pivot is chosen, a decreasing hint reverses the range, a likely-sorted
range tries partialInsertionSort, a pivot equal to the previous boundary
partitions out equals, and otherwise partition splits the range, recursing
into the shorter half and looping on the longer (transcribed as the second
recursive call).  The fuel only bounds the loop plus recursion and is
never exhausted in the runs considered. -/
def pdqsortGo (prio : Nat → Int) :
    Nat → List Nat → Nat → Nat → Nat → Bool → Bool → List Nat
  | fuel, l, a, b, limit, wasBalanced, wasPartitioned =>
    if b - a ≤ 12 then insertionSortRange prio a b l
    else
      match fuel with
      | 0 => l
      | fuel + 1 =>
        if limit = 0 then heapSortGo prio l a b
        else
          let p1 := if wasBalanced = false then (breakPatternsGo l a b, limit - 1)
            else (l, limit)
          let pv := choosePivotGo prio p1.1 a b
          let p2 :=
            if pv.2 = SortedHint.decreasingHint then
              (reverseRangeGo p1.1 a (b - 1) b, (b - 1) - (pv.1 - a),
                SortedHint.increasingHint)
            else (p1.1, pv.1, pv.2)
          let p3 :=
            if wasBalanced = true ∧ wasPartitioned = true ∧
                p2.2.2 = SortedHint.increasingHint then
              partialInsertionSortGo prio a b p2.1 (a + 1) 5
            else (p2.1, false)
          if p3.2 = true then p3.1
          else
            if 0 < a ∧ ¬ prio (getIdx p3.1 p2.2.1) < prio (getIdx p3.1 (a - 1)) then
              let pe := partitionEqualGo prio p3.1 a b p2.2.1
              pdqsortGo prio fuel pe.1 pe.2 b p1.2 wasBalanced wasPartitioned
            else
              let pr := partitionGo prio p3.1 a b p2.2.1
              let mid := pr.2.1
              let wasBalanced2 := decide ((b - a) / 8 ≤ min (mid - a) (b - mid))
              if mid - a < b - mid then
                pdqsortGo prio fuel
                  (pdqsortGo prio fuel pr.1 a mid p1.2 wasBalanced2 pr.2.2)
                  (mid + 1) b p1.2 wasBalanced2 pr.2.2
              else
                pdqsortGo prio fuel
                  (pdqsortGo prio fuel pr.1 (mid + 1) b p1.2 wasBalanced2 pr.2.2)
                  a mid p1.2 wasBalanced2 pr.2.2

/-- Embeds sort.Slice: pdqsort over the whole slice with limit
bits.Len(length), starting balanced and partitioned. -/
def sortSlice (prio : Nat → Int) (l : List Nat) : List Nat :=
  pdqsortGo prio ((l.length + 4) * (l.length + 4)) l 0 l.length
    (bitsLen l.length) true true

/-- Descending priority with ties broken by source-index ascending: the
order the spec claims tryAllStreams establishes. -/
def prioLex (prio : Nat → Int) (i j : Nat) : Prop :=
  prio j < prio i ∨ (prio i = prio j ∧ i < j)

instance (prio : Nat → Int) : DecidableRel (prioLex prio) := fun i j =>
  inferInstanceAs (Decidable (prio j < prio i ∨ (prio i = prio j ∧ i < j)))

/-- Outcome of one full tryAllStreams lap as seen by Balance: success,
context.Canceled, or any other failure. -/
inductive LapOutcome
  | success (r : LoadBalancerResult)
  | canceled
  | failed
deriving DecidableEq, Repr

/-- Result of a Balance call (instance.go lines 113-135). -/
inductive BalanceResult
  | success (r : LoadBalancerResult)
  | cancelled
  | exhausted
deriving DecidableEq, Repr

/-- Modelled from the spec: proxy.NewBackoffStrategy is absent from src;
section 4.3 of the spec defines Next as returning the current delay then
doubling, capped at the ceiling, starting at the floor.  `k` is the number
of earlier Next calls; Balance constructs the strategy with floor 200 ms
and ceiling 2000 ms. -/
def backoffNext (floorMs ceilMs k : Nat) : Nat :=
  min (floorMs * 2 ^ k) ceilMs

/-- Embeds the retry loop of Balance (instance.go lines 113-135).
`outcome lap` abstracts the lap-th tryAllStreams call; `delta lap` is what
that call appended to session.TestedIndexes; `cancelWait lap` tells whether
the context is cancelled during the backoff wait after lap; `waitLog`
records the duration passed to time.After for each wait entered (Next is
called even when the wait is then interrupted).  Fuel bounds the recursion;
none means the fuel ran out, which only happens in the unbounded
maxRetries = 0 mode. -/
def balanceRun (maxRetries : Nat) (outcome : Nat → LapOutcome)
    (delta : Nat → List String) (cancelWait : Nat → Bool) :
    Nat → Nat → List String → List Nat →
    Option (BalanceResult × List String × List Nat)
  | 0, _, _, _ => none
  | fuel + 1, lap, tested, waitLog =>
    if lap < maxRetries ∨ maxRetries = 0 then
      let tested1 := tested ++ delta lap
      match outcome lap with
      | .success r => some (.success r, tested1, waitLog)
      | .canceled => some (.cancelled, tested1, waitLog)
      | .failed =>
        let waitLog1 := waitLog ++ [backoffNext 200 2000 waitLog.length]
        if cancelWait lap then some (.cancelled, [], waitLog1)
        else balanceRun maxRetries outcome delta cancelWait fuel (lap + 1) [] waitLog1
    else some (.exhausted, tested, waitLog)

/-- Value of a digit run, most significant first. -/
def digitsToNat (ds : List Char) : Nat :=
  ds.foldl (fun a c => a * 10 + (c.toNat - 48)) 0

/-- Embeds strconv.Atoi as used by checkConcurrency: the whole string must
be an optionally signed decimal integer, else an error (none). -/
def atoi (s : String) : Option Int :=
  match s.data with
  | [] => none
  | '-' :: rest =>
    if rest ≠ [] ∧ rest.all Char.isDigit then some (-(digitsToNat rest : Int)) else none
  | '+' :: rest =>
    if rest ≠ [] ∧ rest.all Char.isDigit then some (digitsToNat rest : Int) else none
  | l =>
    if l.all Char.isDigit then some (digitsToNat l : Int) else none

/-- Embeds database.StreamURL as used by mp4_handler.go. -/
structure StreamURL where
  m3uIndex : Nat
  content : String
deriving DecidableEq, Repr

/-- Embeds checkConcurrency (mp4_handler.go lines 232-251).  `env` is the
M3U_MAX_CONCURRENCY_i variable for this index (none when unset); `count` is
the database.GetConcurrency result (none models a database error, which the
code treats as concurrency not reached). -/
def checkConcurrency (env : Option String) (count : Option Nat) : Bool :=
  let maxConcurrency : Int :=
    match env with
    | none => 1
    | some raw => match atoi raw with | none => 1 | some n => n
  match count with
  | none => false
  | some c => maxConcurrency ≤ (c : Int)

/-- Embeds the brute-force loop of loadBalancer (mp4_handler.go lines
66-86), the default when LOAD_BALANCING_MODE is unset.  `fetchOk` is the
httpClient.Get oracle (true when err is nil; the status code is not
inspected here); `chk` is checkConcurrency per source index; `reqs` logs
each URL an upstream request is issued for, in order. -/
def bruteForcePhase (fetchOk : String → Bool) (chk : Nat → Bool) :
    List StreamURL → List String → List String × Option StreamURL
  | [], reqs => (reqs, none)
  | u :: rest, reqs =>
    if chk u.m3uIndex then bruteForcePhase fetchOk chk rest reqs
    else
      let reqs1 := reqs ++ [u.content]
      if fetchOk u.content then (reqs1, some u)
      else bruteForcePhase fetchOk chk rest reqs1

/-- Embeds the connection-checking fallback of loadBalancer (mp4_handler.go
lines 91-111): every URL is tried with no concurrency check. -/
def fallbackPhase (fetchOk : String → Bool) :
    List StreamURL → List String → List String × Option StreamURL
  | [], reqs => (reqs, none)
  | u :: rest, reqs =>
    let reqs1 := reqs ++ [u.content]
    if fetchOk u.content then (reqs1, some u)
    else fallbackPhase fetchOk rest reqs1

/-- Embeds loadBalancer (mp4_handler.go lines 20-114) in brute-force mode:
the main loop skips at-cap sources; when it selects nothing, the fallback
runs over all URLs ignoring caps.  Returns the request log and the pick
(none models the final exhausted-all-streams error). -/
def loadBalancer (fetchOk : String → Bool) (chk : Nat → Bool)
    (urls : List StreamURL) : List String × Option StreamURL :=
  match bruteForcePhase fetchOk chk urls [] with
  | (reqs, some u) => (reqs, some u)
  | (reqs, none) => fallbackPhase fetchOk urls reqs

/-- The state StartHLSWriter threads between ticker iterations: the clock,
lastChangeTime, lastMediaSeq and the current poll interval (times in
milliseconds). -/
structure HlsState where
  now : Nat
  lastChangeTime : Nat
  lastMediaSeq : Int
  pollInterval : Nat
deriving DecidableEq, Repr

/-- Result of one ticker iteration: the idle-timeout exit or the next
state. -/
inductive HlsTickResult
  | eofTimeout
  | next (s : HlsState)
deriving DecidableEq, Repr

/-- Embeds one ticker iteration of StartHLSWriter along the poll path where
the manifest reads and parses successfully and is neither a master nor an
endlist playlist (the idle scenario of the claim takes no other branch).
The timeout check runs first, against the poll interval in force during the
wait; afterwards the interval adaptation yields `newInterval` (the
post-jitter value, abstracted); finally mediaSequence is compared with
lastMediaSeq: when lastMediaSeq is less than or equal to seq the code sets
lastChangeTime to the current time and lastMediaSeq to seq, otherwise both
are left unchanged.  The tick fires pollInterval after the previous
iteration. -/
def hlsTick (timeoutMs : Nat) (seq : Int) (newInterval : Nat)
    (s : HlsState) : HlsTickResult :=
  let now := s.now + s.pollInterval
  if timeoutMs + s.pollInterval < now - s.lastChangeTime then .eofTimeout
  else if s.lastMediaSeq ≤ seq then
    .next ⟨now, now, seq, newInterval⟩
  else .next ⟨now, s.lastChangeTime, s.lastMediaSeq, newInterval⟩

/-- Whether the writer is still polling after some ticks, or has exited via
the idle timeout. -/
inductive HlsRunState
  | running (s : HlsState)
  | eofByTimeout
deriving DecidableEq, Repr

/-- Iterates hlsTick n times; `seq k` and `newInterval k` are the parsed
media sequence and the adapted poll interval of the k-th poll. -/
def hlsRun (timeoutMs : Nat) (seq : Nat → Int) (newInterval : Nat → Nat)
    (s0 : HlsState) : Nat → HlsRunState
  | 0 => .running s0
  | n + 1 =>
    match hlsRun timeoutMs seq newInterval s0 n with
    | .eofByTimeout => .eofByTimeout
    | .running s =>
      match hlsTick timeoutMs (seq n) (newInterval n) s with
      | .eofTimeout => .eofByTimeout
      | .next s2 => .running s2

/-- Outcome of fetching one HLS segment: request construction error,
transport error, nil response, or a response with a status code and a flag
telling whether relaying its body ends in io.EOF. -/
inductive SegFetch
  | reqError
  | transportError
  | nilResponse
  | status (code : Nat) (bodyEof : Bool)
deriving DecidableEq, Repr

/-- The error discipline of streamSegment: success, an io.EOF error, or any
other error (carrying its message kind). -/
inductive SegResult
  | ok
  | eofErr
  | fatal (msg : String)
deriving DecidableEq, Repr

/-- Embeds streamSegment (the HLS writer, lines 199-240): every failure
before a 200 body is a non-EOF error; after a 200, relaying the body may
end in io.EOF (eofErr) or succeed.  The response-header publication side
effect is not observable by the claims. -/
def streamSegment (fetch : String → SegFetch) (segmentURL : String) : SegResult :=
  match fetch segmentURL with
  | .reqError => .fatal "error creating request"
  | .transportError => .fatal "error fetching segment"
  | .nilResponse => .fatal "nil response"
  | .status c bodyEof =>
    if c ≠ 200 then .fatal "non-200 status"
    else if bodyEof then .eofErr else .ok

/-- Embeds processSegments (the HLS writer, lines 183-197) without context
cancellation (no claim exercises it): segments are attempted in order; a
fatal streamSegment error is returned at once, ending the walk; ok and
io.EOF continue.  `attempted` accumulates the segments a fetch was issued
for. -/
def processSegments (fetch : String → SegFetch) :
    List String → List String → List String × Option String
  | [], attempted => (attempted, none)
  | seg :: rest, attempted =>
    let attempted1 := attempted ++ [seg]
    match streamSegment fetch seg with
    | .fatal msg => (attempted1, some msg)
    | _ => processSegments fetch rest attempted1

/-- Embeds PlaylistMetadata (the HLS writer, lines 54-61).  TargetDuration
is float64 in the source; rationals model the arithmetic exactly. -/
structure PlaylistMetadata where
  targetDuration : ℚ
  mediaSequence : Int
  version : Int
  isEndlist : Bool
  segments : List String
  isMaster : Bool
deriving DecidableEq, Repr

/-- Line text as a character list (strings are handled at the character
level here so that every operation is structurally recursive). -/
abbrev LineChars := List Char

/-- Splitting on the newline character, as bufio.ScanLines cuts the
manifest into lines. -/
def splitOnChar (c : Char) : List Char → List (List Char)
  | [] => [[]]
  | x :: rest =>
    match splitOnChar c rest, decide (x = c) with
    | r, true => [] :: r
    | [], false => [[x]]
    | h :: t, false => (x :: h) :: t

/-- Embeds strings.TrimSpace on a line (leading and trailing whitespace
removed; the exotic unicode space classes never occur in the claims). -/
def trimChars (l : List Char) : List Char :=
  ((l.dropWhile Char.isWhitespace).reverse.dropWhile Char.isWhitespace).reverse

/-- Embeds strings.HasPrefix: does the line start with the pattern. -/
def hasPrefixChars : List Char → List Char → Bool
  | _, [] => true
  | [], _ :: _ => false
  | c :: cs, p :: ps => c = p && hasPrefixChars cs ps

/-- The leading optionally signed integer of the text after a tag, as
fmt.Sscanf %d reads it (trailing text ignored; failure when no digit is
found, in which case the caller keeps the previous field value). -/
def parseLeadingInt (s : LineChars) : Option Int :=
  match s with
  | '-' :: rest =>
    let ds := rest.takeWhile Char.isDigit
    if ds = [] then none else some (-(digitsToNat ds : Int))
  | '+' :: rest =>
    let ds := rest.takeWhile Char.isDigit
    if ds = [] then none else some (digitsToNat ds : Int)
  | l =>
    let ds := l.takeWhile Char.isDigit
    if ds = [] then none else some (digitsToNat ds : Int)

/-- The leading decimal number of the text after a tag, as fmt.Sscanf %f
reads simple playlist values: digits with an optional fractional part. -/
def parseLeadingRat (s : LineChars) : Option ℚ :=
  let core : List Char → Option ℚ := fun l =>
    let ds := l.takeWhile Char.isDigit
    if ds = [] then none
    else
      match l.dropWhile Char.isDigit with
      | '.' :: r2 =>
        let fs := r2.takeWhile Char.isDigit
        some ((digitsToNat ds : ℚ) + (digitsToNat fs : ℚ) / (10 : ℚ) ^ fs.length)
      | _ => some (digitsToNat ds : ℚ)
  match s with
  | '-' :: rest => (core rest).map (fun q => -q)
  | '+' :: rest => core rest
  | l => core l

/-- The zero-value metadata parsePlaylist starts from: empty segment list
and the fallback target duration of 2. -/
def initMetadata : PlaylistMetadata :=
  { targetDuration := 2, mediaSequence := 0, version := 0,
    isEndlist := false, segments := [], isMaster := false }

/-- Embeds the switch of parsePlaylist on one trimmed line (the HLS writer,
lines 254-282), in source order.  EXT-X-STREAM-INF is a no-op in the
source: no branch ever assigns isMaster.  `resolveSeg` models url.Parse on
the line plus ResolveReference against the manifest URL: none is an invalid
URL (warned and skipped), some u the resolved absolute URL. -/
def parseLine (resolveSeg : String → Option String)
    (m : PlaylistMetadata) (line : LineChars) : PlaylistMetadata :=
  if hasPrefixChars line "#EXTM3U".data then m
  else if hasPrefixChars line "#EXT-X-STREAM-INF".data then m
  else if hasPrefixChars line "#EXT-X-VERSION:".data then
    match parseLeadingInt (line.drop 15) with
    | some v => { m with version := v }
    | none => m
  else if hasPrefixChars line "#EXT-X-TARGETDURATION:".data then
    match parseLeadingRat (line.drop 22) with
    | some d => { m with targetDuration := d }
    | none => m
  else if hasPrefixChars line "#EXT-X-MEDIA-SEQUENCE:".data then
    match parseLeadingInt (line.drop 22) with
    | some n => { m with mediaSequence := n }
    | none => m
  else if line = "#EXT-X-ENDLIST".data then { m with isEndlist := true }
  else if ¬ hasPrefixChars line "#".data ∧ line ≠ [] then
    match resolveSeg (String.mk line) with
    | some u => { m with segments := m.segments ++ [u] }
    | none => m
  else m

/-- Embeds parsePlaylist (the HLS writer, lines 242-285): scan the content
line by line, trimming whitespace, folding parseLine over initMetadata.
The early base-URL parse error return is outside the model: `resolveSeg`
presumes the parsed base the claims rely on. -/
def parsePlaylist (resolveSeg : String → Option String)
    (content : String) : PlaylistMetadata :=
  ((splitOnChar '\n' content.data).map trimChars).foldl
    (parseLine resolveSeg) initMetadata

/-- Nanoseconds per second, the factor time.Duration conversion applies. -/
def nsPerSecond : ℚ := 1000000000

/-- Embeds the poll-interval adaptation of StartHLSWriter (lines 134-148)
over exact rationals (durations in nanoseconds): when targetDuration is
positive, the candidate is targetDuration seconds halved, scaled by the
jitter factor 0.9 + 0.2r with r the rand.Float64 draw; the ticker is reset
to the candidate only when it differs from the current interval by more
than a tenth of the current interval. -/
def adaptPollInterval (targetDuration r pollInterval : ℚ) : ℚ :=
  if 0 < targetDuration then
    let newInterval := targetDuration * nsPerSecond / 2
    let jitter := newInterval * (9 / 10 + 2 / 10 * r)
    if pollInterval * (1 / 10) < |jitter - pollInterval| then jitter
    else pollInterval
  else pollInterval

/-- Embeds the stream record the slug codec serializes (the shape of
sourceproc.StreamInfo; store.StreamInfo itself is absent from src, and no
claim depends on the exact field set). -/
structure StreamInfo where
  title : String
  tvgID : String
  tvgChNo : String
  tvgType : String
  logoURL : String
  group : String
  urls : List (String × List (String × String))
  sourceM3U : String
  sourceIndex : Int
deriving DecidableEq, Repr

/-- The standard base64 alphabet. -/
def base64Alphabet : List Char :=
  "ABCDEFGHIJKLMNOPQRSTUVWXYZabcdefghijklmnopqrstuvwxyz0123456789+/".data

/-- The base64 digit for a 6-bit value. -/
def base64Char (n : Nat) : Char := base64Alphabet.getD n 'A'

/-- Standard base64 encoding of a byte list, three bytes to four digits,
padded with equals signs. -/
def base64EncodeGroups : List Nat → List Char
  | [] => []
  | [b0] => [base64Char (b0 / 4), base64Char (b0 % 4 * 16), '=', '=']
  | [b0, b1] =>
    [base64Char (b0 / 4), base64Char (b0 % 4 * 16 + b1 / 16),
     base64Char (b1 % 16 * 4), '=']
  | b0 :: b1 :: b2 :: rest =>
    base64Char (b0 / 4) :: base64Char (b0 % 4 * 16 + b1 / 16) ::
    base64Char (b1 % 16 * 4 + b2 / 64) :: base64Char (b2 % 64) ::
    base64EncodeGroups rest

/-- Embeds base64.StdEncoding.EncodeToString. -/
def base64Encode (bytes : List Nat) : String := String.mk (base64EncodeGroups bytes)

/-- Embeds strings.Replace(s, old, new, -1) for the one-character patterns
the slug codec uses. -/
def replaceChar (a b : Char) (s : String) : String :=
  String.mk (s.data.map (fun c => if c = a then b else c))

/-- Embeds strings.Replace(s, old, "", -1) for a one-character pattern: the
padding strip of the slug codec. -/
def removeChar (a : Char) (s : String) : String :=
  String.mk (s.data.filter (fun c => c ≠ a))

/-- Embeds EncodeSlug (the store slug codec, lines 16-44), statement for
statement: json marshal; zstd.CompressLevel with the never-assigned nil
destination slice compressedData, whose actual output lands only in the
discarded variable out; base64 of compressedData; then the URL-safe
character replacements and padding strip.  `jsonMarshal` and
`zstdCompress` are oracles for the two libraries (none models their error
return, on which the source returns the empty string). -/
def EncodeSlug (jsonMarshal : StreamInfo → Option (List Nat))
    (zstdCompress : List Nat → Option (List Nat)) (stream : StreamInfo) : String :=
  match jsonMarshal stream with
  | none => ""
  | some jsonData =>
    let compressedData : List Nat := []
    match zstdCompress jsonData with
    | none => ""
    | some _out =>
      let e1 := base64Encode compressedData
      let e2 := replaceChar '+' '-' e1
      let e3 := replaceChar '/' '_' e2
      removeChar '=' e3

/-- The padding restoration of DecodeSlug (lines 50-55): lengths 2 and 3
modulo 4 get equals signs back. -/
def padSlug (s : String) : String :=
  match s.length % 4 with
  | 2 => s ++ "=="
  | 3 => s ++ "="
  | _ => s

/-- Embeds DecodeSlug (the store slug codec, lines 46-75): undo the
URL-safe replacements, restore padding, base64-decode; then
zstd.Decompress into the never-assigned nil destination slice
decompressedData, discarding the returned output; finally json unmarshal
of decompressedData.  The three oracles model the libraries; none is their
error return. -/
def DecodeSlug (b64decode : String → Option (List Nat))
    (zstdDecompress : List Nat → Option (List Nat))
    (jsonUnmarshal : List Nat → Option StreamInfo)
    (encodedSlug : String) : Except String StreamInfo :=
  let s1 := replaceChar '_' '/' (replaceChar '-' '+' encodedSlug)
  let s2 := padSlug s1
  match b64decode s2 with
  | none => .error "error decoding Base64 data"
  | some decodedData =>
    let decompressedData : List Nat := []
    match zstdDecompress decodedData with
    | none => .error "error reading decompressed data"
    | some _ =>
      match jsonUnmarshal decompressedData with
      | none => .error "error deserializing data"
      | some result => .ok result

/-
  Theorems.
-/

/-- C2: for every (source, sub) pair considered by tryStreamUrls: the pair
is skipped with no HTTP request issued when the session already contains
"source|sub" or when CheckConcurrency(source) is true; otherwise exactly
one HTTP request with the caller-supplied method is issued, and each of
request-construction error, transport error, nil response, and non-200
status appends "source|sub" to TestedIndexes and continues with the next
pair, while a 200 response returns a LoadBalancerResult carrying that
response, the URL, the source index and the sub index. -/
theorem tryStreamUrls_pair_spec (fetch : String → HttpOutcome) (checkConc : Bool)
    (method index sub u : String) (rest : List (String × String))
    (tested : List String) (reqs : List (String × String)) :
    (tested.contains (index ++ "|" ++ sub) = true →
      tryStreamUrls fetch checkConc method index ((sub, u) :: rest) tested reqs =
        tryStreamUrls fetch checkConc method index rest tested reqs) ∧
    (checkConc = true →
      tryStreamUrls fetch checkConc method index ((sub, u) :: rest) tested reqs =
        tryStreamUrls fetch checkConc method index rest tested reqs) ∧
    (tested.contains (index ++ "|" ++ sub) = false → checkConc = false →
      (fetch u = .reqError ∨ fetch u = .transportError ∨ fetch u = .nilResponse ∨
        ∃ c, fetch u = .status c ∧ c ≠ 200) →
      tryStreamUrls fetch checkConc method index ((sub, u) :: rest) tested reqs =
        tryStreamUrls fetch checkConc method index rest
          (tested ++ [index ++ "|" ++ sub]) (reqs ++ [(method, u)])) ∧
    (tested.contains (index ++ "|" ++ sub) = false → checkConc = false →
      fetch u = .status 200 →
      tryStreamUrls fetch checkConc method index ((sub, u) :: rest) tested reqs =
        (tested, reqs ++ [(method, u)], some ⟨u, index, sub, 200⟩)) := by
  refine ⟨?_, ?_, ?_, ?_⟩
  · intro h
    simp only [tryStreamUrls, h, if_true]
  · intro h
    subst h
    by_cases ht : tested.contains (index ++ "|" ++ sub) = true <;>
      simp only [tryStreamUrls] <;> split <;> simp
  · intro ht hc hf
    subst hc
    have ht2 : ¬ (tested.contains (index ++ "|" ++ sub) = true) := by
      rw [ht]; exact Bool.false_ne_true
    simp only [tryStreamUrls]
    rw [if_neg ht2, if_neg Bool.false_ne_true]
    rcases hf with h | h | h | ⟨c, hcs, hne⟩
    · simp only [h]
    · simp only [h]
    · simp only [h]
    · simp only [hcs]
      rw [if_neg hne]
  · intro ht hc hf
    subst hc
    have ht2 : ¬ (tested.contains (index ++ "|" ++ sub) = true) := by
      rw [ht]; exact Bool.false_ne_true
    simp only [tryStreamUrls]
    rw [if_neg ht2, if_neg Bool.false_ne_true]
    simp [hf]

/-- C2 witness: the four branches of tryStreamUrls_pair_spec exercised at
concrete inputs. -/
theorem tryStreamUrls_pair_spec_witness :
    (tryStreamUrls (fun _ => .status 200) false "GET" "1" [("a", "u1")] ["1|a"] [] =
      tryStreamUrls (fun _ => .status 200) false "GET" "1" [] ["1|a"] []) ∧
    (tryStreamUrls (fun _ => .status 200) true "GET" "1" [("a", "u1")] [] [] =
      tryStreamUrls (fun _ => .status 200) true "GET" "1" [] [] []) ∧
    (tryStreamUrls (fun _ => .status 500) false "GET" "1" [("a", "u1")] [] [] =
      tryStreamUrls (fun _ => .status 500) false "GET" "1" [] ["1|a"] [("GET", "u1")]) ∧
    (tryStreamUrls (fun _ => .status 200) false "GET" "1" [("a", "u1")] [] [] =
      ([], [("GET", "u1")], some ⟨"u1", "1", "a", 200⟩)) := by
  refine ⟨?_, ?_, ?_, ?_⟩
  · exact (tryStreamUrls_pair_spec (fun _ => .status 200) false "GET" "1" "a" "u1"
      [] ["1|a"] []).1 (by decide)
  · exact (tryStreamUrls_pair_spec (fun _ => .status 200) true "GET" "1" "a" "u1"
      [] [] []).2.1 rfl
  · exact (tryStreamUrls_pair_spec (fun _ => .status 500) false "GET" "1" "a" "u1"
      [] [] []).2.2.1 (by decide) rfl (Or.inr (Or.inr (Or.inr ⟨500, rfl, by decide⟩)))
  · exact (tryStreamUrls_pair_spec (fun _ => .status 200) false "GET" "1" "a" "u1"
      [] [] []).2.2.2 (by decide) rfl rfl

/-- C6 counterexample: the same sub-index map enumerated in two iteration
orders Go may produce (map iteration order is unspecified in Go) yields two
different successful results from the same session state, concurrency state
and URL map, so the determinism the claim states fails. -/
theorem tryStreamUrls_order_dependent :
    (tryStreamUrls (fun _ => .status 200) false "GET" "1"
        [("a", "u1"), ("b", "u2")] [] []).2.2 = some ⟨"u1", "1", "a", 200⟩ ∧
    (tryStreamUrls (fun _ => .status 200) false "GET" "1"
        [("b", "u2"), ("a", "u1")] [] []).2.2 = some ⟨"u2", "1", "b", 200⟩ := by
  constructor <;> rfl

/-- C6 amended: for a fixed iteration order of the sub-index entries, the
run is a function of the session state, the concurrency state and the
fetch outcomes of the listed URLs alone: two oracles agreeing on every
listed URL produce identical runs (tested indexes, request log and
result). -/
theorem tryStreamUrls_deterministic (f g : String → HttpOutcome) (cc : Bool)
    (method index : String) :
    ∀ (l : List (String × String)) (tested : List String)
      (reqs : List (String × String)),
      (∀ p ∈ l, f p.2 = g p.2) →
      tryStreamUrls f cc method index l tested reqs =
        tryStreamUrls g cc method index l tested reqs
  | [], _, _, _ => rfl
  | (sub, u) :: rest, tested, reqs, h => by
    have hu : f u = g u := h (sub, u) (by simp)
    have hrest : ∀ p ∈ rest, f p.2 = g p.2 := fun p hp => h p (by simp [hp])
    simp only [tryStreamUrls, hu]
    split
    · exact tryStreamUrls_deterministic f g cc method index rest tested reqs hrest
    · split
      · exact tryStreamUrls_deterministic f g cc method index rest tested reqs hrest
      · cases g u with
        | status c =>
          by_cases hc : c = 200
          · simp only [hc, if_true, if_pos rfl]
          · simp only [if_neg hc]
            exact tryStreamUrls_deterministic f g cc method index rest
              (tested ++ [index ++ "|" ++ sub]) (reqs ++ [(method, u)]) hrest
        | reqError =>
          exact tryStreamUrls_deterministic f g cc method index rest
            (tested ++ [index ++ "|" ++ sub]) (reqs ++ [(method, u)]) hrest
        | transportError =>
          exact tryStreamUrls_deterministic f g cc method index rest
            (tested ++ [index ++ "|" ++ sub]) (reqs ++ [(method, u)]) hrest
        | nilResponse =>
          exact tryStreamUrls_deterministic f g cc method index rest
            (tested ++ [index ++ "|" ++ sub]) (reqs ++ [(method, u)]) hrest

/-- C6 witness: tryStreamUrls_deterministic at two concrete oracles that
agree on the one listed URL. -/
theorem tryStreamUrls_deterministic_witness :
    tryStreamUrls (fun _ => .status 200) false "GET" "1" [("a", "u1")] [] [] =
      tryStreamUrls (fun v => if v = "u1" then .status 200 else .status 500)
        false "GET" "1" [("a", "u1")] [] [] :=
  tryStreamUrls_deterministic (fun _ => .status 200)
    (fun v => if v = "u1" then .status 200 else .status 500) false "GET" "1"
    [("a", "u1")] [] [] (by decide)

/-- The descending-priority order with index tie-break is transitive. -/
theorem prioLex_trans (prio : Nat → Int) {i j k : Nat}
    (h1 : prioLex prio i j) (h2 : prioLex prio j k) : prioLex prio i k := by
  rcases h1 with h1 | ⟨e1, l1⟩ <;> rcases h2 with h2 | ⟨e2, l2⟩
  · exact Or.inl (lt_trans h2 h1)
  · exact Or.inl (e2 ▸ h1)
  · exact Or.inl (e1 ▸ h2)
  · exact Or.inr ⟨e1.trans e2, lt_trans l1 l2⟩

/-- Reading the element just past a prefix. -/
theorem getIdx_append (A : List Nat) (b : Nat) (D : List Nat) :
    getIdx (A ++ b :: D) A.length = b := by
  induction A with
  | nil => rfl
  | cons a A ih => simpa [getIdx] using ih

/-- Writing the element just past a prefix. -/
theorem set_append (A : List Nat) (b : Nat) (D : List Nat) (v : Nat) :
    (A ++ b :: D).set A.length v = A ++ v :: D := by
  induction A with
  | nil => rfl
  | cons a A ih => simpa [List.set] using ih

/-- Swapping two adjacent positions of the modelled slice exchanges the two
list elements there. -/
theorem swapIdx_adjacent (A : List Nat) (b c : Nat) (D : List Nat) :
    swapIdx (A ++ b :: c :: D) (A.length + 1) A.length = A ++ c :: b :: D := by
  have h0 : getIdx (A ++ b :: c :: D) A.length = b := getIdx_append A b (c :: D)
  have h1 : getIdx (A ++ b :: c :: D) (A.length + 1) = c := by
    have := getIdx_append (A ++ [b]) c D
    simpa [List.append_assoc] using this
  have step1 : (A ++ b :: c :: D).set (A.length + 1) b = A ++ b :: b :: D := by
    have := set_append (A ++ [b]) c D b
    simpa [List.append_assoc] using this
  have step2 : (A ++ b :: b :: D).set A.length c = A ++ c :: b :: D :=
    set_append A b (b :: D) c
  rw [swapIdx, h0, h1, step1, step2]

/-- Membership in an insRev insertion. -/
theorem insRev_mem (prio : Nat → Int) (x : Nat) :
    ∀ (Q : List Nat) (w : Nat), w ∈ insRev prio x Q ↔ w = x ∨ w ∈ Q
  | [], w => by simp [insRev]
  | z :: zs, w => by
    rw [insRev]
    split
    · simp only [List.mem_cons, insRev_mem prio x zs w]
      tauto
    · simp [List.mem_cons]

/-- Length of an insRev insertion. -/
theorem insRev_length (prio : Nat → Int) (x : Nat) :
    ∀ Q : List Nat, (insRev prio x Q).length = Q.length + 1
  | [] => rfl
  | z :: zs => by
    rw [insRev]
    split <;> simp [insRev_length prio x zs]

/-- An insRev insertion is a permutation of consing the element. -/
theorem insRev_perm (prio : Nat → Int) (x : Nat) :
    ∀ Q : List Nat, (insRev prio x Q).Perm (x :: Q)
  | [] => List.Perm.refl _
  | z :: zs => by
    rw [insRev]
    split
    · exact ((insRev_perm prio x zs).cons z).trans (List.Perm.swap x z zs)
    · exact List.Perm.refl _

/-- One run of the insertionSort inner loop at position just past the
prefix sinks the new element per insRev: each recursive step is one swap
of adjacent positions. -/
theorem insInner_spec (prio : Nat → Int) (x : Nat) :
    ∀ (Q R : List Nat),
      insInner prio 0 (Q.reverse ++ x :: R) Q.length = (insRev prio x Q).reverse ++ R
  | [], R => rfl
  | z :: zs, R => by
    have hshape : (z :: zs).reverse ++ x :: R = zs.reverse ++ z :: x :: R := by
      simp
    rw [hshape, show (z :: zs).length = zs.length + 1 from rfl, insInner]
    have hz : getIdx (zs.reverse ++ z :: x :: R) zs.length = z := by
      have := getIdx_append zs.reverse z (x :: R)
      simpa using this
    have hx : getIdx (zs.reverse ++ z :: x :: R) (zs.length + 1) = x := by
      have := getIdx_append (zs.reverse ++ [z]) x R
      simpa [List.append_assoc] using this
    rw [hz, hx]
    by_cases h : prio z < prio x
    · rw [if_pos ⟨Nat.zero_le _, h⟩]
      have hswap : swapIdx (zs.reverse ++ z :: x :: R) (zs.length + 1) zs.length =
          zs.reverse ++ x :: z :: R := by
        have := swapIdx_adjacent zs.reverse z x R
        simpa using this
      rw [hswap, insInner_spec prio x zs (z :: R), insRev, if_pos h]
      simp
    · rw [if_neg (fun hc => h hc.2), insRev, if_neg h]
      simp

/-- Inserting an index larger than everything present keeps the reversed
prefix sorted by descending priority with ascending tie-break: the element
sinks past exactly the strictly lower priorities and stops at the first
tie, which keeps ties in insertion order. -/
theorem insRev_reverse_sorted (prio : Nat → Int) (x : Nat) :
    ∀ Q : List Nat, Q.reverse.Sorted (prioLex prio) → (∀ z ∈ Q, z < x) →
      (insRev prio x Q).reverse.Sorted (prioLex prio)
  | [], _, _ => List.sorted_singleton x
  | z :: zs, hs, hlt => by
    have hsz : (zs.reverse ++ [z]).Sorted (prioLex prio) := by
      simpa using hs
    have hzs : zs.reverse.Sorted (prioLex prio) := (List.pairwise_append.mp hsz).1
    have hWz : ∀ w ∈ zs.reverse, prioLex prio w z := fun w hw =>
      (List.pairwise_append.mp hsz).2.2 w hw z (by simp)
    rw [insRev]
    split
    case isTrue h =>
      rw [List.reverse_cons]
      refine List.pairwise_append.mpr ?_
      refine ⟨insRev_reverse_sorted prio x zs hzs
        (fun w hw => hlt w (by simp [hw])), List.sorted_singleton z, ?_⟩
      intro w hw y hy
      rw [show y = z from by simpa using hy]
      have hw2 : w = x ∨ w ∈ zs := by
        have hmem := List.mem_reverse.mp hw
        exact (insRev_mem prio x zs w).mp hmem
      rcases hw2 with rfl | hwzs
      · exact Or.inl h
      · exact hWz w (List.mem_reverse.mpr hwzs)
    case isFalse h =>
      have hle : prio x ≤ prio z := not_lt.mp h
      rw [show (x :: z :: zs).reverse = (z :: zs).reverse ++ [x] from by simp]
      refine List.pairwise_append.mpr ?_
      refine ⟨by simpa using hs, List.sorted_singleton x, ?_⟩
      intro w hw y hy
      rw [show y = x from by simpa using hy]
      have hw2 : w ∈ z :: zs := List.mem_reverse.mp hw
      have hwx : w < x := hlt w hw2
      rcases List.mem_cons.mp hw2 with rfl | hwzs
      · rcases lt_or_eq_of_le hle with hlt2 | heq
        · exact Or.inl hlt2
        · exact Or.inr ⟨heq.symm, hwx⟩
      · rcases hWz w (List.mem_reverse.mpr hwzs) with h1 | ⟨h1, _⟩
        · exact Or.inl (lt_of_le_of_lt hle h1)
        · rcases lt_or_eq_of_le hle with hlt2 | heq
          · exact Or.inl (lt_of_lt_of_eq hlt2 h1.symm)
          · exact Or.inr ⟨h1.trans heq.symm, hwx⟩

/-- The insertionSort outer loop keeps the processed prefix sorted by
descending priority with ascending tie-break, for an input whose suffix
carries indexes above the prefix in ascending order. -/
theorem insOuter_sorted (prio : Nat → Int) :
    ∀ (T S : List Nat), S.Sorted (prioLex prio) →
      (∀ s ∈ S, ∀ t ∈ T, s < t) → T.Sorted (· < ·) →
      (insOuter prio 0 (S ++ T) S.length T.length).Sorted (prioLex prio)
  | [], S, hS, _, _ => by simpa [insOuter] using hS
  | x :: T2, S, hS, hlt, hT => by
    rw [show (x :: T2).length = T2.length + 1 from rfl, insOuter]
    have hins : insInner prio 0 (S ++ x :: T2) S.length =
        (insRev prio x S.reverse).reverse ++ T2 := by
      have := insInner_spec prio x S.reverse T2
      simpa using this
    have hlen2 : S.length + 1 = ((insRev prio x S.reverse).reverse).length := by
      simp [insRev_length]
    rw [hins, hlen2]
    apply insOuter_sorted prio T2
    · exact insRev_reverse_sorted prio x S.reverse (by simpa using hS)
        (fun z hz => hlt z (List.mem_reverse.mp hz) x (by simp))
    · intro s2 hs2 t ht
      have hs3 : s2 = x ∨ s2 ∈ S.reverse :=
        (insRev_mem prio x S.reverse s2).mp (List.mem_reverse.mp hs2)
      rcases hs3 with rfl | hsS
      · exact (List.sorted_cons.mp hT).1 t ht
      · exact hlt s2 (List.mem_reverse.mp hsS) t (by simp [ht])
    · exact (List.sorted_cons.mp hT).2

/-- The insertionSort outer loop permutes the slice. -/
theorem insOuter_perm (prio : Nat → Int) :
    ∀ (T S : List Nat), (insOuter prio 0 (S ++ T) S.length T.length).Perm (S ++ T)
  | [], S => by simp [insOuter]
  | x :: T2, S => by
    rw [show (x :: T2).length = T2.length + 1 from rfl, insOuter]
    have hins : insInner prio 0 (S ++ x :: T2) S.length =
        (insRev prio x S.reverse).reverse ++ T2 := by
      have := insInner_spec prio x S.reverse T2
      simpa using this
    have hlen2 : S.length + 1 = ((insRev prio x S.reverse).reverse).length := by
      simp [insRev_length]
    rw [hins, hlen2]
    have h1 : ((insRev prio x S.reverse).reverse).Perm (x :: S) :=
      (List.reverse_perm _).trans ((insRev_perm prio x S.reverse).trans
        ((List.reverse_perm S).cons x))
    exact (insOuter_perm prio T2 _).trans
      ((h1.append_right T2).trans List.perm_middle.symm)

/-- Go insertionSort over the whole slice sorts an ascending index list by
descending priority with ties remaining ascending. -/
theorem insertionSortRange_sorted (prio : Nat → Int) (l : List Nat)
    (hl : l.Sorted (· < ·)) :
    (insertionSortRange prio 0 l.length l).Sorted (prioLex prio) := by
  cases l with
  | nil => simp [insertionSortRange, insOuter]
  | cons y T =>
    have hshape : insertionSortRange prio 0 (y :: T).length (y :: T) =
        insOuter prio 0 ([y] ++ T) ([y] : List Nat).length T.length := by
      simp [insertionSortRange]
    rw [hshape]
    apply insOuter_sorted
    · exact List.sorted_singleton y
    · intro s hs t ht
      have hsy : s = y := by simpa using hs
      subst hsy
      exact (List.sorted_cons.mp hl).1 t ht
    · exact (List.sorted_cons.mp hl).2

/-- Go insertionSort over the whole slice permutes it. -/
theorem insertionSortRange_perm (prio : Nat → Int) (l : List Nat) :
    (insertionSortRange prio 0 l.length l).Perm l := by
  cases l with
  | nil => simp [insertionSortRange, insOuter]
  | cons y T =>
    have hshape : insertionSortRange prio 0 (y :: T).length (y :: T) =
        insOuter prio 0 ([y] ++ T) ([y] : List Nat).length T.length := by
      simp [insertionSortRange]
    rw [hshape]
    exact insOuter_perm prio T [y]

set_option maxRecDepth 100000 in
/-- C5 counterexample: thirteen sources, all caps 1, where source 0 holds
one active connection (priority 0) and sources 1 to 12 are idle (tied at
priority 1).  sort.Slice runs pdqsort, whose partitioning swaps the pivot
(position 6) to the front, so the sorted result starts with source 6 ahead
of the equal-priority sources 1 to 5: the ties are not broken by
source-index ascending and the result is not sorted under the claimed
descending-priority-then-index order. -/
theorem sortSlice_ties_not_ascending :
    sortSlice (fun i => ConcurrencyPriorityValue 1 (if i = 0 then 1 else 0))
      [0, 1, 2, 3, 4, 5, 6, 7, 8, 9, 10, 11, 12] =
      [6, 1, 2, 3, 4, 5, 7, 8, 9, 10, 11, 12, 0] ∧
    (fun i => ConcurrencyPriorityValue 1 (if i = 0 then 1 else 0)) 6 =
      (fun i => ConcurrencyPriorityValue 1 (if i = 0 then 1 else 0)) 1 ∧
    ¬ (sortSlice (fun i => ConcurrencyPriorityValue 1 (if i = 0 then 1 else 0))
        [0, 1, 2, 3, 4, 5, 6, 7, 8, 9, 10, 11, 12]).Sorted
      (prioLex (fun i => ConcurrencyPriorityValue 1 (if i = 0 then 1 else 0))) := by
  refine ⟨by decide, rfl, by decide⟩

/-- C5 amended: tryAllStreams orders the source-indexes with sort.Slice by
ConcurrencyPriorityValue = cap - current, descending; with at most 12
sources - where sort.Slice runs its insertion sort - the result is that
order with ties broken by source-index ascending (for the ascending index
list the provider supplies) and is a permutation of the input, while with
13 or more sources pdqsort may reorder equal-priority sources; in
particular, with caps [2, 1] and counts [0, 0] source 0 is tried first,
and with counts [2, 0] source 1 is tried first. -/
theorem tryAllStreams_priority_order_small (cap current : Nat → Nat)
    (l : List Nat) (hl : l.Sorted (· < ·)) (hlen : l.length ≤ 12) :
    sortSlice (fun i => ConcurrencyPriorityValue (cap i) (current i)) l =
      insertionSortRange (fun i => ConcurrencyPriorityValue (cap i) (current i))
        0 l.length l ∧
    (sortSlice (fun i => ConcurrencyPriorityValue (cap i) (current i)) l).Sorted
      (prioLex (fun i => ConcurrencyPriorityValue (cap i) (current i))) ∧
    (sortSlice (fun i => ConcurrencyPriorityValue (cap i) (current i)) l).Perm l ∧
    sortSlice (fun i => ConcurrencyPriorityValue ([2, 1].getD i 0) ([0, 0].getD i 0))
      [0, 1] = [0, 1] ∧
    sortSlice (fun i => ConcurrencyPriorityValue ([2, 1].getD i 0) ([2, 0].getD i 0))
      [0, 1] = [1, 0] := by
  have hbridge : sortSlice (fun i => ConcurrencyPriorityValue (cap i) (current i)) l =
      insertionSortRange (fun i => ConcurrencyPriorityValue (cap i) (current i))
        0 l.length l := by
    rw [sortSlice, pdqsortGo.eq_def]
    simp [hlen]
  refine ⟨hbridge, ?_, ?_, by decide, by decide⟩
  · rw [hbridge]
    exact insertionSortRange_sorted _ l hl
  · rw [hbridge]
    exact insertionSortRange_perm _ l

/-- C5 witness: tryAllStreams_priority_order_small at caps [2, 1], counts
[0, 0] and the ascending two-element index list. -/
theorem tryAllStreams_priority_order_small_witness :
    (sortSlice (fun i => ConcurrencyPriorityValue ([2, 1].getD i 0) ([0, 0].getD i 0))
      [0, 1]).Sorted
      (prioLex (fun i => ConcurrencyPriorityValue ([2, 1].getD i 0) ([0, 0].getD i 0))) :=
  (tryAllStreams_priority_order_small (fun i => [2, 1].getD i 0)
    (fun i => [0, 0].getD i 0) [0, 1] (by simp) (by simp)).2.1

/-- C1 counterexample: lap 0 fails (tryAllStreams returns context.Canceled
after appending "1|a"), yet Balance returns the cancellation error at once
with TestedIndexes left at ["0|b", "1|a"], not cleared to the empty set,
and with no backoff wait entered (empty wait log) - against the claim that
after every failed lap TestedIndexes is cleared and Backoff.Next() is
awaited. -/
theorem Balance_canceled_lap_keeps_tested :
    balanceRun 3 (fun _ => .canceled) (fun _ => ["1|a"]) (fun _ => false)
      3 0 ["0|b"] [] = some (.cancelled, ["0|b", "1|a"], []) := by
  decide

/-- C1 amended: Balance runs laps while lap < MaxRetries or MaxRetries = 0;
a successful lap returns its result at once; a lap failing with
context.Canceled returns the cancellation error at once, leaving
TestedIndexes as the lap left it; after every other failed lap
TestedIndexes is cleared to the empty set and one Backoff.Next() wait is
entered (duration 200 ms doubling to a 2 s cap), returning the cancellation
error if the context is cancelled during that wait; once lap reaches a
nonzero MaxRetries the exhausted-all-streams error is returned; and with
MaxRetries = 0 the loop never exhausts. -/
theorem Balance_retry_loop (maxRetries : Nat) (outcome : Nat → LapOutcome)
    (delta : Nat → List String) (cancelWait : Nat → Bool)
    (fuel lap : Nat) (tested : List String) (waitLog : List Nat) :
    (∀ r, (lap < maxRetries ∨ maxRetries = 0) → outcome lap = .success r →
      balanceRun maxRetries outcome delta cancelWait (fuel + 1) lap tested waitLog =
        some (.success r, tested ++ delta lap, waitLog)) ∧
    ((lap < maxRetries ∨ maxRetries = 0) → outcome lap = .canceled →
      balanceRun maxRetries outcome delta cancelWait (fuel + 1) lap tested waitLog =
        some (.cancelled, tested ++ delta lap, waitLog)) ∧
    ((lap < maxRetries ∨ maxRetries = 0) → outcome lap = .failed →
      cancelWait lap = true →
      balanceRun maxRetries outcome delta cancelWait (fuel + 1) lap tested waitLog =
        some (.cancelled, [], waitLog ++ [backoffNext 200 2000 waitLog.length])) ∧
    ((lap < maxRetries ∨ maxRetries = 0) → outcome lap = .failed →
      cancelWait lap = false →
      balanceRun maxRetries outcome delta cancelWait (fuel + 1) lap tested waitLog =
        balanceRun maxRetries outcome delta cancelWait fuel (lap + 1) []
          (waitLog ++ [backoffNext 200 2000 waitLog.length])) ∧
    (maxRetries ≠ 0 → maxRetries ≤ lap →
      balanceRun maxRetries outcome delta cancelWait (fuel + 1) lap tested waitLog =
        some (.exhausted, tested, waitLog)) ∧
    (maxRetries = 0 → ∀ f2 l2 t2 w2 t3 w3,
      balanceRun maxRetries outcome delta cancelWait f2 l2 t2 w2 ≠
        some (.exhausted, t3, w3)) := by
  refine ⟨?_, ?_, ?_, ?_, ?_, ?_⟩
  · intro r hbudget hs
    simp [balanceRun, if_pos hbudget, hs]
  · intro hbudget hs
    simp [balanceRun, if_pos hbudget, hs]
  · intro hbudget hs hw
    simp [balanceRun, if_pos hbudget, hs, hw]
  · intro hbudget hs hw
    simp [balanceRun, if_pos hbudget, hs, hw]
  · intro hnz hle
    have : ¬ (lap < maxRetries ∨ maxRetries = 0) := by
      rintro (h | h)
      · exact absurd hle (not_le.mpr h)
      · exact hnz h
    simp [balanceRun, if_neg this]
  · intro hz
    subst hz
    intro f2
    induction f2 with
    | zero => intro l2 t2 w2 t3 w3; simp [balanceRun]
    | succ f ih =>
      intro l2 t2 w2 t3 w3
      simp only [balanceRun, Nat.not_lt_zero, false_or, if_pos (Or.inr rfl)]
      cases houtcome : outcome l2 with
      | success r => simp
      | canceled => simp
      | failed =>
        cases hcw : cancelWait l2 with
        | true => simp [hcw]
        | false => simpa [hcw] using ih (l2 + 1) [] (w2 ++ [backoffNext 200 2000 w2.length]) t3 w3

/-- C1 witness: the branches of Balance_retry_loop at concrete traces -
success on lap 0 with budget 2, cancellation during the first backoff wait,
a failed lap clearing the tested set before the next lap, exhaustion at a
spent budget, and the unbounded mode never exhausting. -/
theorem Balance_retry_loop_witness :
    (balanceRun 2 (fun _ => .success ⟨"u1", "1", "a", 200⟩) (fun _ => ["1|b"])
        (fun _ => false) 1 0 [] [] =
      some (.success ⟨"u1", "1", "a", 200⟩, ["1|b"], [])) ∧
    (balanceRun 2 (fun _ => .failed) (fun _ => ["1|b"]) (fun _ => true) 1 0 [] [] =
      some (.cancelled, [], [200])) ∧
    (balanceRun 2 (fun _ => .failed) (fun _ => ["1|b"]) (fun _ => false) 2 0 ["s"] [] =
      balanceRun 2 (fun _ => .failed) (fun _ => ["1|b"]) (fun _ => false) 1 1 [] [200]) ∧
    (balanceRun 2 (fun _ => .failed) (fun _ => ["1|b"]) (fun _ => false) 1 2 ["s"] [] =
      some (.exhausted, ["s"], [])) ∧
    (balanceRun 0 (fun _ => .failed) (fun _ => ["1|b"]) (fun _ => false) 4 0 [] [] ≠
      some (.exhausted, [], [])) := by
  refine ⟨?_, ?_, ?_, ?_, ?_⟩
  · exact (Balance_retry_loop 2 (fun _ => .success ⟨"u1", "1", "a", 200⟩)
      (fun _ => ["1|b"]) (fun _ => false) 0 0 [] []).1 ⟨"u1", "1", "a", 200⟩
      (Or.inl (by decide)) rfl
  · exact (Balance_retry_loop 2 (fun _ => .failed) (fun _ => ["1|b"])
      (fun _ => true) 0 0 [] []).2.2.1 (Or.inl (by decide)) rfl rfl
  · exact (Balance_retry_loop 2 (fun _ => .failed) (fun _ => ["1|b"])
      (fun _ => false) 1 0 ["s"] []).2.2.2.1 (Or.inl (by decide)) rfl rfl
  · exact (Balance_retry_loop 2 (fun _ => .failed) (fun _ => ["1|b"])
      (fun _ => false) 0 2 ["s"] []).2.2.2.2.1 (by decide) (by decide)
  · exact (Balance_retry_loop 0 (fun _ => .failed) (fun _ => ["1|b"])
      (fun _ => false) 0 0 [] []).2.2.2.2.2 rfl 4 0 [] [] [] []

/-- C8 counterexample: source 0 sits at its default cap (count 1, cap 1
from an absent M3U_MAX_CONCURRENCY variable), yet loadBalancer issues an
upstream request for its URL and returns a successful pick from it: the
brute-force loop skips the source, selects nothing, and the
connection-checking fallback retries it ignoring the cap. -/
theorem loadBalancer_fallback_ignores_caps :
    checkConcurrency none (some 1) = true ∧
    loadBalancer (fun _ => true) (fun _ => checkConcurrency none (some 1))
      [⟨0, "u"⟩] = (["u"], some ⟨0, "u"⟩) := by
  constructor <;> rfl

/-- C8 amended: in the main brute-force loop every at-cap source is skipped
with no upstream request (every logged request and every pick comes from a
source whose concurrency check is false), and the cap defaults to 1 when
the M3U_MAX_CONCURRENCY variable is absent or unparsable; but when that
loop selects nothing, loadBalancer falls back to connection-checking mode,
which requests every URL ignoring the caps and may return an at-cap
source. -/
theorem loadBalancer_cap_discipline (fetchOk : String → Bool) (chk : Nat → Bool) :
    (∀ (urls : List StreamURL) (reqs : List String) (r : String),
      r ∈ (bruteForcePhase fetchOk chk urls reqs).1 →
      r ∈ reqs ∨ ∃ u, u ∈ urls ∧ u.content = r ∧ chk u.m3uIndex = false) ∧
    (∀ (urls : List StreamURL) (reqs : List String) (u : StreamURL),
      (bruteForcePhase fetchOk chk urls reqs).2 = some u →
      u ∈ urls ∧ chk u.m3uIndex = false) ∧
    (∀ c : Nat, checkConcurrency none (some c) = true ↔ 1 ≤ c) ∧
    (∀ (raw : String) (c : Nat), atoi raw = none →
      (checkConcurrency (some raw) (some c) = true ↔ 1 ≤ c)) ∧
    (∀ urls : List StreamURL,
      (bruteForcePhase fetchOk chk urls []).2 = none →
      loadBalancer fetchOk chk urls =
        fallbackPhase fetchOk urls (bruteForcePhase fetchOk chk urls []).1) := by
  refine ⟨?_, ?_, ?_, ?_, ?_⟩
  · intro urls
    induction urls with
    | nil =>
      intro reqs r hr
      exact Or.inl hr
    | cons u rest ih =>
      intro reqs r hr
      by_cases hc : chk u.m3uIndex = true
      · rw [bruteForcePhase, if_pos hc] at hr
        rcases ih reqs r hr with h | ⟨v, hv, hvc, hvk⟩
        · exact Or.inl h
        · exact Or.inr ⟨v, by simp [hv], hvc, hvk⟩
      · have hcf : chk u.m3uIndex = false := by simpa using hc
        rw [bruteForcePhase, if_neg hc] at hr
        by_cases hf : fetchOk u.content = true
        · rw [if_pos hf] at hr
          rcases List.mem_append.mp hr with h | h
          · exact Or.inl h
          · exact Or.inr ⟨u, by simp, (List.mem_singleton.mp h).symm, hcf⟩
        · rw [if_neg hf] at hr
          rcases ih (reqs ++ [u.content]) r hr with h | ⟨v, hv, hvc, hvk⟩
          · rcases List.mem_append.mp h with h2 | h2
            · exact Or.inl h2
            · exact Or.inr ⟨u, by simp, (List.mem_singleton.mp h2).symm, hcf⟩
          · exact Or.inr ⟨v, by simp [hv], hvc, hvk⟩
  · intro urls
    induction urls with
    | nil =>
      intro reqs u hr
      simp [bruteForcePhase] at hr
    | cons v rest ih =>
      intro reqs u hr
      by_cases hc : chk v.m3uIndex = true
      · rw [bruteForcePhase, if_pos hc] at hr
        rcases ih reqs u hr with ⟨hm, hk⟩
        exact ⟨by simp [hm], hk⟩
      · have hcf : chk v.m3uIndex = false := by simpa using hc
        rw [bruteForcePhase, if_neg hc] at hr
        by_cases hf : fetchOk v.content = true
        · rw [if_pos hf] at hr
          have : v = u := by simpa using hr
          subst this
          exact ⟨by simp, hcf⟩
        · rw [if_neg hf] at hr
          rcases ih (reqs ++ [v.content]) u hr with ⟨hm, hk⟩
          exact ⟨by simp [hm], hk⟩
  · intro c
    simp only [checkConcurrency, decide_eq_true_eq]
    exact_mod_cast Iff.rfl
  · intro raw c ha
    simp only [checkConcurrency, ha, decide_eq_true_eq]
    exact_mod_cast Iff.rfl
  · intro urls hnone
    rw [loadBalancer]
    rcases hbfp : bruteForcePhase fetchOk chk urls [] with ⟨reqs, sel⟩
    rw [hbfp] at hnone
    simp only at hnone
    subst hnone
    simp [hbfp]

/-- C8 witness: loadBalancer_cap_discipline at a two-source list where
source 0 is at cap, a default-cap check at count 2, an unparsable cap
string, and a fallback run after an empty brute-force selection. -/
theorem loadBalancer_cap_discipline_witness :
    ("u1" ∈ ([] : List String) ∨ ∃ u, u ∈ [(⟨0, "u0"⟩ : StreamURL), ⟨1, "u1"⟩] ∧
      u.content = "u1" ∧ (u.m3uIndex == 0) = false) ∧
    ((⟨1, "u1"⟩ : StreamURL) ∈ [(⟨0, "u0"⟩ : StreamURL), ⟨1, "u1"⟩] ∧
      ((1 : Nat) == 0) = false) ∧
    (checkConcurrency (some "abc") (some 2) = true ↔ 1 ≤ 2) ∧
    loadBalancer (fun _ => true) (fun i => i == 0) [⟨0, "u0"⟩] =
      fallbackPhase (fun _ => true) [⟨0, "u0"⟩]
        (bruteForcePhase (fun _ => true) (fun i => i == 0) [⟨0, "u0"⟩] []).1 := by
  refine ⟨?_, ?_, ?_, ?_⟩
  · exact (loadBalancer_cap_discipline (fun _ => true) (fun i => i == 0)).1
      [⟨0, "u0"⟩, ⟨1, "u1"⟩] [] "u1" (by decide)
  · exact (loadBalancer_cap_discipline (fun _ => true) (fun i => i == 0)).2.1
      [⟨0, "u0"⟩, ⟨1, "u1"⟩] [] ⟨1, "u1"⟩ (by decide)
  · exact (loadBalancer_cap_discipline (fun _ => true) (fun i => i == 0)).2.2.2.1
      "abc" 2 (by decide)
  · exact (loadBalancer_cap_discipline (fun _ => true) (fun i => i == 0)).2.2.2.2
      [⟨0, "u0"⟩] (by decide)

/-- C4 counterexample: in the playlist ["a", "b", "c"] the fetch of "b"
returns status 500; processSegments stops there with the non-200 error, so
segment "c" is never fetched - against the claim that a non-200 segment is
skipped with a warning and the remaining segments are still relayed. -/
theorem processSegments_non200_aborts :
    processSegments
      (fun s => if s = "b" then .status 500 false else .status 200 false)
      ["a", "b", "c"] [] = (["a", "b"], some "non-200 status") := by
  decide

/-- C4 amended: a segment fetch returning non-200 makes streamSegment
return a non-EOF error, and processSegments returns the first such error
at once: only the segments before and including the failing one are
fetched, the rest of the playlist is not (segments whose relay ends in
io.EOF are the only failing ones skipped and continued past). -/
theorem processSegments_stops_at_first_fatal (fetch : String → SegFetch) :
    (∀ (s : String) (c : Nat) (b : Bool), fetch s = .status c b → c ≠ 200 →
      streamSegment fetch s = .fatal "non-200 status") ∧
    (∀ (l1 : List String) (s : String) (l2 : List String)
      (attempted : List String) (msg : String),
      (∀ x ∈ l1, streamSegment fetch x = .ok ∨ streamSegment fetch x = .eofErr) →
      streamSegment fetch s = .fatal msg →
      processSegments fetch (l1 ++ s :: l2) attempted =
        (attempted ++ l1 ++ [s], some msg)) := by
  constructor
  · intro s c b hf hc
    simp [streamSegment, hf, hc]
  · intro l1
    induction l1 with
    | nil =>
      intro s l2 attempted msg _ hs
      simp [processSegments, hs]
    | cons x rest ih =>
      intro s l2 attempted msg hok hs
      rcases hok x (by simp) with h | h
      · rw [List.cons_append, processSegments, h]
        rw [ih s l2 (attempted ++ [x]) msg (fun y hy => hok y (by simp [hy])) hs]
        simp
      · rw [List.cons_append, processSegments, h]
        rw [ih s l2 (attempted ++ [x]) msg (fun y hy => hok y (by simp [hy])) hs]
        simp

/-- C4 witness: processSegments_stops_at_first_fatal at the concrete
playlist ["a", "b", "c"] where "a" succeeds, "b" relays to io.EOF, and "c"
returns 404. -/
theorem processSegments_stops_at_first_fatal_witness :
    streamSegment
      (fun s => if s = "c" then .status 404 false
        else if s = "b" then .status 200 true else .status 200 false) "c" =
      .fatal "non-200 status" ∧
    processSegments
      (fun s => if s = "c" then .status 404 false
        else if s = "b" then .status 200 true else .status 200 false)
      (["a", "b"] ++ "c" :: ["d"]) [] = ([] ++ ["a", "b"] ++ ["c"], some "non-200 status") := by
  constructor
  · exact (processSegments_stops_at_first_fatal _).1 "c" 404 false rfl (by decide)
  · exact (processSegments_stops_at_first_fatal _).2 ["a", "b"] "c" ["d"] []
      "non-200 status" (by decide) (by decide)

/-- C3: evaluated at the idle failing input (the manifest parses with media
sequence constant at 10 and never ends), the HLS writer never reaches the
idle-timeout exit: because the comparison mediaSequence >= lastMediaSeq
also succeeds on equality, every poll refreshes lastChangeTime, so at each
tick the elapsed time equals the current poll interval and can never
exceed timeoutSeconds + pollInterval - for any timeout, any initial poll
interval and any adapted intervals, after any number of polls the writer
is still running, with no terminal EOF. -/
theorem hls_idle_never_times_out (timeoutMs : Nat) (newInterval : Nat → Nat)
    (t0 p0 : Nat) :
    ∀ n : Nat, ∃ s : HlsState,
      hlsRun timeoutMs (fun _ => 10) newInterval ⟨t0, t0, -1, p0⟩ n = .running s ∧
      s.lastChangeTime = s.now ∧ s.lastMediaSeq ≤ 10 := by
  intro n
  induction n with
  | zero =>
    refine ⟨⟨t0, t0, -1, p0⟩, rfl, rfl, ?_⟩
    show (-1 : Int) ≤ 10
    decide
  | succ n ih =>
    rcases ih with ⟨s, hs, hchange, hseq⟩
    refine ⟨⟨s.now + s.pollInterval, s.now + s.pollInterval, 10, newInterval n⟩,
      ?_, rfl, le_refl 10⟩
    rw [hlsRun, hs]
    have hto : ¬ (timeoutMs + s.pollInterval <
        s.now + s.pollInterval - s.lastChangeTime) := by
      rw [hchange]
      omega
    simp only [hlsTick, if_neg hto, if_pos hseq]

/-- C7: parsePlaylist never reports a master playlist: no branch of the
line switch assigns IsMaster, so it is false for every content, and on a
concrete master manifest (EXT-X-STREAM-INF followed by a variant URI) the
result has IsMaster false with the variant URI collected as an ordinary
segment - hence the master-rejection branch of StartHLSWriter is
unreachable and no terminal ServerError is published for master
playlists. -/
theorem parsePlaylist_never_master :
    (∀ (resolveSeg : String → Option String) (content : String),
      (parsePlaylist resolveSeg content).isMaster = false) ∧
    parsePlaylist some
      "#EXTM3U\n#EXT-X-STREAM-INF:BANDWIDTH=1280000\nhttp://example.com/low.m3u8" =
      { targetDuration := 2, mediaSequence := 0, version := 0, isEndlist := false,
        segments := ["http://example.com/low.m3u8"], isMaster := false } := by
  constructor
  · intro resolveSeg content
    rw [parsePlaylist]
    have hline : ∀ (m : PlaylistMetadata) (line : LineChars),
        (parseLine resolveSeg m line).isMaster = m.isMaster := by
      intro m line
      rw [parseLine]
      repeat' split
      all_goals rfl
    have : ∀ (lines : List LineChars) (m : PlaylistMetadata),
        (lines.foldl (parseLine resolveSeg) m).isMaster = m.isMaster := by
      intro lines
      induction lines with
      | nil => intro m; rfl
      | cons x rest ih => intro m; rw [List.foldl_cons, ih, hline]
    exact this _ _
  · decide

/-- C9: on every poll with positive parsed targetDuration, the candidate
interval is targetDuration/2 seconds scaled by the jitter factor
0.9 + 0.2r, which lies in [0.9, 1.1] for every rand.Float64 draw
r in [0, 1); the ticker moves to the candidate exactly when it differs
from the current interval by more than a tenth of the current interval,
and is otherwise left unchanged. -/
theorem adaptPollInterval_spec (td r p : ℚ) (htd : 0 < td) (hr0 : 0 ≤ r)
    (hr1 : r < 1) :
    (9 / 10 ≤ 9 / 10 + 2 / 10 * r ∧ 9 / 10 + 2 / 10 * r ≤ 11 / 10) ∧
    (p * (1 / 10) < |td * nsPerSecond / 2 * (9 / 10 + 2 / 10 * r) - p| →
      adaptPollInterval td r p = td * nsPerSecond / 2 * (9 / 10 + 2 / 10 * r)) ∧
    (¬ p * (1 / 10) < |td * nsPerSecond / 2 * (9 / 10 + 2 / 10 * r) - p| →
      adaptPollInterval td r p = p) := by
  refine ⟨⟨by nlinarith, by nlinarith⟩, ?_, ?_⟩
  · intro h
    rw [adaptPollInterval, if_pos htd]
    simp only [if_pos h]
  · intro h
    rw [adaptPollInterval, if_pos htd]
    simp only [if_neg h]

/-- C9 witness: adaptPollInterval_spec at targetDuration 6 s, draw 1/2 and
current interval 1 s: the candidate is 3 s, the difference 2 s exceeds the
tenth of 1 s, so the ticker is updated to the candidate. -/
theorem adaptPollInterval_spec_witness :
    adaptPollInterval 6 (1 / 2) nsPerSecond =
      6 * nsPerSecond / 2 * (9 / 10 + 2 / 10 * (1 / 2)) :=
  (adaptPollInterval_spec 6 (1 / 2) nsPerSecond (by norm_num) (by norm_num)
    (by norm_num)).2.1 (by rw [nsPerSecond]; norm_num)

/-- C10: the slug codec is broken end to end: EncodeSlug base64-encodes the
never-assigned nil destination buffer compressedData instead of the output
of zstd.CompressLevel, so it returns the empty string for every StreamInfo
(whatever the marshal and compression oracles do); and DecodeSlug likewise
discards the decompression output and unmarshals the nil buffer
decompressedData, so it never returns a StreamInfo for any slug (the
hypothesis is the Go stdlib fact that unmarshalling an empty byte slice
fails).  In particular no slug is non-empty and no round trip succeeds. -/
theorem slug_codec_broken (jsonMarshal : StreamInfo → Option (List Nat))
    (zstdCompress : List Nat → Option (List Nat))
    (b64decode : String → Option (List Nat))
    (zstdDecompress : List Nat → Option (List Nat))
    (jsonUnmarshal : List Nat → Option StreamInfo)
    (hju : jsonUnmarshal [] = none) :
    (∀ stream : StreamInfo, EncodeSlug jsonMarshal zstdCompress stream = "") ∧
    (∀ (slug : String) (r : StreamInfo),
      DecodeSlug b64decode zstdDecompress jsonUnmarshal slug ≠ .ok r) := by
  constructor
  · intro stream
    rcases hm : jsonMarshal stream with _ | jsonData
    · simp [EncodeSlug, hm]
    · rcases hc : zstdCompress jsonData with _ | out
      · simp [EncodeSlug, hm, hc]
      · simp only [EncodeSlug, hm, hc]
        rfl
  · intro slug r
    rcases hb : b64decode (padSlug (replaceChar '_' '/' (replaceChar '-' '+' slug)))
      with _ | decodedData
    · simp [DecodeSlug, hb]
    · rcases hd : zstdDecompress decodedData with _ | rest
      · simp [DecodeSlug, hb, hd]
      · simp [DecodeSlug, hb, hd, hju]

/-- C10 witness: slug_codec_broken at concrete oracles (marshal and
compression succeed with nonempty outputs, unmarshal of the empty buffer
fails) and a concrete stream: the encoded slug is empty and decoding it
back does not return the stream. -/
theorem slug_codec_broken_witness :
    EncodeSlug (fun _ => some [1, 2, 3]) (fun _ => some [4, 5])
      ⟨"title", "", "", "", "", "", [], "", 0⟩ = "" ∧
    DecodeSlug (fun _ => some [4, 5]) (fun _ => some [1, 2, 3]) (fun _ => none)
      "" ≠ .ok ⟨"title", "", "", "", "", "", [], "", 0⟩ := by
  constructor
  · exact (slug_codec_broken (fun _ => some [1, 2, 3]) (fun _ => some [4, 5])
      (fun _ => some [4, 5]) (fun _ => some [1, 2, 3]) (fun _ => none) rfl).1
      ⟨"title", "", "", "", "", "", [], "", 0⟩
  · exact (slug_codec_broken (fun _ => some [1, 2, 3]) (fun _ => some [4, 5])
      (fun _ => some [4, 5]) (fun _ => some [1, 2, 3]) (fun _ => none) rfl).2
      "" ⟨"title", "", "", "", "", "", [], "", 0⟩

end M3UProxy
